import Mathlib

/-!
Shallow embedding of the `portreg` registry package (Go) and proofs about it.

The embedding mirrors `registry.go`:
* `Assignment`, `BlockedPort`, `registryData`, `Registry` mirror the Go structs;
* string helpers (`trimSpace`, `Atoi`, split/contains) mirror the Go standard
  library functions the code calls (`strings.TrimSpace`, `strconv.Atoi`,
  `strings.Split`, `strings.Contains`);
* persistence is modelled over an explicit file-system state `FS` storing JSON
  documents as trees (`Json`), with a `SaveOracle` selecting which, if any, of
  the fallible file-system steps of `Save` fails;
* `encoding/json` marshalling/unmarshalling of the registry schema is modelled
  at the JSON-tree level by `encodeRegistryData` / `decodeRegistryData`
  (field presence, `omitempty`, null / missing-field defaulting, and
  wrong-type errors are modelled; byte-level JSON syntax is not).
-/

namespace Portreg

/-- Whitespace predicate of Go `unicode.IsSpace` (the characters
`strings.TrimSpace` trims): ASCII `\t \n \v \f \r ' '` plus the Unicode
White_Space code points. -/
def goIsSpace (c : Char) : Bool :=
  c == ' ' || c == '\t' || c == '\n' || c.toNat == 0x0B || c.toNat == 0x0C || c == '\r' ||
  c.toNat == 0x85 || c.toNat == 0xA0 || c.toNat == 0x1680 ||
  (0x2000 ≤ c.toNat && c.toNat ≤ 0x200A) ||
  c.toNat == 0x2028 || c.toNat == 0x2029 || c.toNat == 0x202F ||
  c.toNat == 0x205F || c.toNat == 0x3000

/-- Go `strings.TrimSpace`: drop leading and trailing whitespace. -/
def trimSpace (s : String) : String :=
  ⟨((s.toList.dropWhile goIsSpace).reverse.dropWhile goIsSpace).reverse⟩

/-- Decimal digit accumulation of Go `strconv.ParseUint` (base 10): every
character must be a digit `0`-`9`, otherwise the parse fails. -/
def digitsToNat : List Char → Nat → Option Nat
  | [], acc => some acc
  | c :: rest, acc =>
      if c.isDigit then digitsToNat rest (acc * 10 + (c.toNat - 48)) else none

/-- Parse a nonempty all-digit string to a natural number, as Go
`strconv.ParseUint(s, 10, 64)` does before the range check. -/
def parseDigits : List Char → Option Nat
  | [] => none
  | cs => digitsToNat cs 0

/-- Largest value of Go's 64-bit `int`: `2^63 - 1`. -/
def int64Max : Nat := 9223372036854775807

/-- Go `strconv.Atoi` (64-bit `int`): optional `+`/`-` sign followed by at
least one decimal digit, rejecting anything else, with the `int64` range
check of `strconv.ParseInt(s, 10, 0)`. Returns `none` where Go returns an
error. -/
def Atoi (s : String) : Option Int :=
  match s.toList with
  | '+' :: rest =>
      (parseDigits rest).bind fun n =>
        if n ≤ int64Max then some (n : Int) else none
  | '-' :: rest =>
      (parseDigits rest).bind fun n =>
        if n ≤ int64Max + 1 then some (-(n : Int)) else none
  | cs =>
      (parseDigits cs).bind fun n =>
        if n ≤ int64Max then some (n : Int) else none

/-- `Assignment` represents a port assignment to a project
(fields `Port`, `Description`, `Path` as in the Go struct). -/
structure Assignment where
  Port : Int
  Description : String
  Path : String
deriving DecidableEq, Repr

/-- `BlockedPort` represents a port or range of ports that should not be
assigned (fields `Ports`, `Description` as in the Go struct). -/
structure BlockedPort where
  Ports : String
  Description : String
deriving DecidableEq, Repr

/-- Split a character list at every occurrence of `sep` (Go
`strings.Split` with a one-character separator: every occurrence splits,
empty parts are kept). -/
def splitOnChar (sep : Char) : List Char → List (List Char)
  | [] => [[]]
  | c :: rest =>
      match splitOnChar sep rest with
      | [] => [[]]
      | part :: parts =>
          if c == sep then [] :: part :: parts else (c :: part) :: parts

/-- Go `strings.Split(s, sep)` for a one-character separator. -/
def splitString (s : String) (sep : Char) : List String :=
  (splitOnChar sep s.toList).map (fun cs => ⟨cs⟩)

/-- Go `strings.Contains(s, sub)` for a one-character needle. -/
def containsChar (s : String) (c : Char) : Bool :=
  s.toList.any (fun x => x == c)

/-- `isPortInRange` checks if a port is within a range specification:
if the spec contains a hyphen it must split into exactly two parts that,
trimmed, parse as integers `start` and `endP`, and the port matches iff
`start <= port <= endP`; otherwise the trimmed spec must parse as a single
integer equal to the port. Malformed specs match nothing. -/
def isPortInRange (port : Int) (rangeSpec : String) : Bool :=
  if containsChar rangeSpec '-' then
    match splitString rangeSpec '-' with
    | [a, b] =>
        match Atoi (trimSpace a), Atoi (trimSpace b) with
        | some start, some endP => decide (start ≤ port) && decide (port ≤ endP)
        | _, _ => false
    | _ => false
  else
    match Atoi (trimSpace rangeSpec) with
    | some singlePort => port == singlePort
    | none => false

/-- JSON documents as trees (the registry file's persisted content).
Numbers are restricted to integers, the only numbers the registry schema
uses. -/
inductive Json where
  | null
  | bool (b : Bool)
  | num (n : Int)
  | str (s : String)
  | arr (elems : List Json)
  | obj (fields : List (String × Json))

/-- File-system state: the set of existing directories and a map from path
to the JSON document stored there. -/
structure FS where
  dirs : List String
  files : List (String × Json)

/-- Content of the file at `path`, if it exists (`os.ReadFile` /
`os.Stat` success). -/
def FS.read (fs : FS) (path : String) : Option Json :=
  (fs.files.find? (fun f => f.1 == path)).map (·.2)

/-- Replace (or create) the file at `path` with `content`
(`os.WriteFile`). -/
def FS.write (fs : FS) (path : String) (content : Json) : FS :=
  { fs with files := (path, content) :: fs.files.filter (fun f => !(f.1 == path)) }

/-- Delete the file at `path` if present (`os.Remove`). -/
def FS.remove (fs : FS) (path : String) : FS :=
  { fs with files := fs.files.filter (fun f => !(f.1 == path)) }

/-- Join character-list parts with `/` between them. -/
def joinSlash : List (List Char) → List Char
  | [] => []
  | [part] => part
  | part :: parts => part ++ '/' :: joinSlash parts

/-- Parent directory of a path (`filepath.Dir`, simplified to slash
splitting): everything before the final `/`, else `.`; the root stays
`/`. -/
def dirOf (p : String) : String :=
  let parts := splitString p '/'
  if parts.length ≤ 1 then "."
  else
    let d : String := ⟨joinSlash (parts.dropLast.map (·.toList))⟩
    if d == "" then "/" else d

/-- The chain of ancestor directories of `d` (with `fuel` bounding the
climb, as each step strictly shortens the path or reaches a fixed
point). -/
def ancestors : Nat → String → List String
  | 0, d => [d]
  | fuel + 1, d => d :: (if dirOf d == d then [] else ancestors fuel (dirOf d))

/-- `os.MkdirAll`: create the directory and all missing ancestors. -/
def FS.mkdirAll (fs : FS) (dir : String) : FS :=
  { fs with dirs := ancestors dir.length dir ++ fs.dirs }

/-- The registry's error kinds (`ErrPortAlreadyAssigned` etc., plus the
wrapped parse and I/O failures). -/
inductive RegErr where
  | portAlreadyAssigned (description : String)
  | portNotAssigned (port : Int)
  | portBlocked (port : Int)
  | noPortsAvailable
  | alreadyInitialized (path : String)
  | parseError
  | ioError
deriving DecidableEq, Repr

/-- Which, if any, of the fallible file-system steps inside `Save` fails
in a given execution. -/
inductive SaveOracle where
  | ok
  | mkdirFail
  | writeFail
  | renameFail
deriving DecidableEq, Repr

/-- `registryData` represents the JSON structure of the registry file. -/
structure registryData where
  Assignments : List Assignment
  BlockedPorts : List BlockedPort
deriving DecidableEq, Repr

/-- `Registry` manages port assignments and persistence. -/
structure Registry where
  path : String
  assignments : List Assignment
  blockedPorts : List BlockedPort
deriving DecidableEq, Repr

/-- `encoding/json` marshalling of an `Assignment`: `port` always,
`description` and `path` omitted when empty (`omitempty`). -/
def encodeAssignment (a : Assignment) : Json :=
  .obj ([("port", .num a.Port)] ++
        (if a.Description == "" then [] else [("description", .str a.Description)]) ++
        (if a.Path == "" then [] else [("path", .str a.Path)]))

/-- `encoding/json` marshalling of a `BlockedPort`: `ports` always,
`description` omitted when empty (`omitempty`). -/
def encodeBlockedPort (bp : BlockedPort) : Json :=
  .obj ([("ports", .str bp.Ports)] ++
        (if bp.Description == "" then [] else [("description", .str bp.Description)]))

/-- `encoding/json` marshalling of `registryData`: the two fields in
struct order. -/
def encodeRegistryData (assignments : List Assignment) (blockedPorts : List BlockedPort) : Json :=
  .obj [("assignments", .arr (assignments.map encodeAssignment)),
        ("blockedPorts", .arr (blockedPorts.map encodeBlockedPort))]

/-- ASCII lower-casing of one character. Go's `strings.EqualFold` uses
Unicode simple folding; on the ASCII keys of the registry schema the two
agree. -/
def asciiLower (c : Char) : Char :=
  if 65 ≤ c.toNat && c.toNat ≤ 90 then Char.ofNat (c.toNat + 32) else c

/-- Go `strings.EqualFold`, restricted to ASCII folding. -/
def equalFold (a b : String) : Bool :=
  a.toList.map asciiLower == b.toList.map asciiLower

/-- Field lookup of `encoding/json`: a key matching the field name exactly
is preferred; failing that, the first case-insensitively matching key is
used. (With several keys matching one field Go keeps the last assignment
while this model keeps the first; no claim concerns such documents, and
`encodeRegistryData` never produces them.) -/
def getField (fields : List (String × Json)) (name : String) : Option Json :=
  match fields.find? (fun f => f.1 == name) with
  | some f => some f.2
  | none => (fields.find? (fun f => equalFold f.1 name)).map (·.2)

/-- Unmarshal an `int` field: missing or `null` leaves the zero value,
a number is taken, any other type is an `UnmarshalTypeError`. -/
def decodeIntField : Option Json → Option Int
  | none => some 0
  | some .null => some 0
  | some (.num n) => some n
  | some _ => none

/-- Unmarshal a `string` field: missing or `null` leaves the zero value,
a string is taken, any other type is an `UnmarshalTypeError`. -/
def decodeStrField : Option Json → Option String
  | none => some ""
  | some .null => some ""
  | some (.str s) => some s
  | some _ => none

/-- Unmarshal one `Assignment` object. -/
def decodeAssignment : Json → Option Assignment
  | .obj fields =>
      (decodeIntField (getField fields "port")).bind fun port =>
      (decodeStrField (getField fields "description")).bind fun description =>
      (decodeStrField (getField fields "path")).map fun path =>
      ⟨port, description, path⟩
  | _ => none

/-- Unmarshal one `BlockedPort` object. -/
def decodeBlockedPort : Json → Option BlockedPort
  | .obj fields =>
      (decodeStrField (getField fields "ports")).bind fun ports =>
      (decodeStrField (getField fields "description")).map fun description =>
      ⟨ports, description⟩
  | _ => none

/-- Unmarshal a slice field: missing or `null` leaves the nil slice
(empty), an array decodes elementwise, any other type errors. -/
def decodeListField {α : Type} (dec : Json → Option α) : Option Json → Option (List α)
  | none => some []
  | some .null => some []
  | some (.arr elems) => elems.mapM dec
  | some _ => none

/-- `json.Unmarshal` of the registry document into `registryData`. -/
def decodeRegistryData : Json → Option registryData
  | .obj fields =>
      (decodeListField decodeAssignment (getField fields "assignments")).bind fun as =>
      (decodeListField decodeBlockedPort (getField fields "blockedPorts")).map fun bps =>
      ⟨as, bps⟩
  | _ => none

/-- `isPortBlocked` checks if a port is in any blocked range. -/
def Registry.isPortBlocked (r : Registry) (port : Int) : Bool :=
  r.blockedPorts.any (fun bp => isPortInRange port bp.Ports)

/-- `Save` persists the registry to disk: marshal, ensure the parent
directory exists (`os.MkdirAll`), write the whole serialization to
`path + ".tmp"`, then rename the temporary file over the target; on
rename failure the temporary file is removed. The `oracle` selects which,
if any, fallible step fails (marshalling of these plain structs cannot
fail). -/
def Registry.Save (r : Registry) (fs : FS) (oracle : SaveOracle) : FS × Option RegErr :=
  let jsonData := encodeRegistryData r.assignments r.blockedPorts
  let dir := dirOf r.path
  if oracle == .mkdirFail then (fs, some .ioError)
  else
    let fs1 := fs.mkdirAll dir
    let tmpFile := r.path ++ ".tmp"
    if oracle == .writeFail then (fs1, some .ioError)
    else
      let fs2 := fs1.write tmpFile jsonData
      if oracle == .renameFail then (fs2.remove tmpFile, some .ioError)
      else ((fs2.remove tmpFile).write r.path jsonData, none)

/-- `load` reads the registry from disk: read the file, unmarshal it, and
install both collections in the receiver. -/
def Registry.load (r : Registry) (fs : FS) : Except RegErr Registry :=
  match fs.read r.path with
  | none => .error .ioError
  | some doc =>
      match decodeRegistryData doc with
      | none => .error .parseError
      | some regData =>
          .ok { r with assignments := regData.Assignments,
                       blockedPorts := regData.BlockedPorts }

/-- `New` creates a new `Registry` instance with empty collections,
loading from the file at `path` if it exists. -/
def New (fs : FS) (path : String) : Except RegErr Registry :=
  let r : Registry := { path := path, assignments := [], blockedPorts := [] }
  match fs.read path with
  | some _ => r.load fs
  | none => .ok r

/-- The default blocked ports for common services seeded by `Init`. -/
def defaultBlockedPorts : List BlockedPort :=
  [⟨"3306", "MySQL default port"⟩,
   ⟨"5432", "PostgreSQL default port"⟩,
   ⟨"6379", "Redis default port"⟩,
   ⟨"8080", "Common HTTP alternative port"⟩,
   ⟨"27017", "MongoDB default port"⟩]

/-- `Init` initializes a new registry file with default blocked ports;
it fails if a file already exists at the registry's path. -/
def Registry.Init (r : Registry) (fs : FS) (oracle : SaveOracle) :
    Registry × FS × Option RegErr :=
  match fs.read r.path with
  | some _ => (r, fs, some (.alreadyInitialized r.path))
  | none =>
      let r1 := { r with blockedPorts := defaultBlockedPorts, assignments := [] }
      let saved := r1.Save fs oracle
      (r1, saved.1, saved.2)

/-- `AssignPort` assigns a specific port to a project: fails if already
assigned (with the existing assignment's description) or blocked,
otherwise appends the new `Assignment` and performs `Save`. -/
def Registry.AssignPort (r : Registry) (fs : FS) (oracle : SaveOracle)
    (port : Int) (description pathArg : String) : Registry × FS × Option RegErr :=
  match r.assignments.find? (fun a => a.Port == port) with
  | some a => (r, fs, some (.portAlreadyAssigned a.Description))
  | none =>
      if r.isPortBlocked port then (r, fs, some (.portBlocked port))
      else
        let r1 := { r with assignments := r.assignments ++ [⟨port, description, pathArg⟩] }
        let saved := r1.Save fs oracle
        (r1, saved.1, saved.2)

/-- `IsPortAvailable` checks if a port can be assigned: not currently
assigned and not blocked. -/
def Registry.IsPortAvailable (r : Registry) (port : Int) : Bool :=
  if r.assignments.any (fun a => a.Port == port) then false
  else !(r.isPortBlocked port)

/-- The scan loop of `findNextAvailablePort`: try `port`, then `port + 1`,
…, for `fuel` candidates; `-1` when the range is exhausted. -/
def findLoop (r : Registry) (port : Int) : Nat → Int
  | 0 => -1
  | fuel + 1 => if r.IsPortAvailable port then port else findLoop r (port + 1) fuel

/-- `findNextAvailablePort` finds the lowest available port, scanning from
3100 to 65535 inclusive (62436 candidates); `-1` if none is available. -/
def Registry.findNextAvailablePort (r : Registry) : Int :=
  findLoop r 3100 62436

/-- `AssignNextAvailable` finds and assigns the next available port,
returning the assigned port, or 0 together with an error. -/
def Registry.AssignNextAvailable (r : Registry) (fs : FS) (oracle : SaveOracle)
    (description pathArg : String) : Registry × FS × Int × Option RegErr :=
  let port := r.findNextAvailablePort
  if port = -1 then (r, fs, 0, some .noPortsAvailable)
  else
    let res := r.AssignPort fs oracle port description pathArg
    match res.2.2 with
    | some err => (res.1, res.2.1, 0, some err)
    | none => (res.1, res.2.1, port, none)

/-- `UnassignPort` releases a port assignment: fails if the port is not
assigned, otherwise keeps every other assignment in order and performs
`Save`. -/
def Registry.UnassignPort (r : Registry) (fs : FS) (oracle : SaveOracle)
    (port : Int) : Registry × FS × Option RegErr :=
  let found := r.assignments.any (fun a => a.Port == port)
  let newAssignments := r.assignments.filter (fun a => !(a.Port == port))
  if !found then (r, fs, some (.portNotAssigned port))
  else
    let r1 := { r with assignments := newAssignments }
    let saved := r1.Save fs oracle
    (r1, saved.1, saved.2)

/-- `ListAssignments` returns all current port assignments. -/
def Registry.ListAssignments (r : Registry) : List Assignment :=
  r.assignments

/-! ### File-system lemmas -/

lemma tmp_ne (p : String) : p ++ ".tmp" ≠ p := by
  intro h
  have hlen := congrArg String.length h
  rw [String.length_append] at hlen
  have h4 : (".tmp" : String).length = 4 := rfl
  omega

lemma find?_filter_ne (l : List (String × Json)) (p q : String) (h : q ≠ p) :
    (l.filter (fun f => !(f.1 == p))).find? (fun f => f.1 == q) =
      l.find? (fun f => f.1 == q) := by
  induction l with
  | nil => rfl
  | cons x xs ih =>
      by_cases hx : x.1 = p
      · rw [List.filter_cons, if_neg (by simp [hx])]
        rw [List.find?_cons_of_neg _ (by simp [hx]; exact Ne.symm h)]
        exact ih
      · rw [List.filter_cons, if_pos (by simp [hx])]
        by_cases hxq : x.1 = q
        · rw [List.find?_cons_of_pos _ (by simp [hxq]),
            List.find?_cons_of_pos _ (by simp [hxq])]
        · rw [List.find?_cons_of_neg _ (by simp [hxq]),
            List.find?_cons_of_neg _ (by simp [hxq])]
          exact ih

lemma find?_filter_self (l : List (String × Json)) (p : String) :
    (l.filter (fun f => !(f.1 == p))).find? (fun f => f.1 == p) = none := by
  rw [List.find?_eq_none]
  intro x hx
  have := (List.mem_filter.1 hx).2
  simpa using this

lemma FS.read_write_self (fs : FS) (p : String) (c : Json) :
    (fs.write p c).read p = some c := by
  simp [FS.write, FS.read, List.find?]

lemma FS.read_write_ne (fs : FS) (p q : String) (c : Json) (h : q ≠ p) :
    (fs.write p c).read q = fs.read q := by
  have hpq : (p == q) = false := by
    simp
    exact fun hqp => h hqp.symm
  simp only [FS.write, FS.read, List.find?, hpq]
  rw [find?_filter_ne _ _ _ h]

lemma FS.read_remove_self (fs : FS) (p : String) :
    (fs.remove p).read p = none := by
  simp only [FS.remove, FS.read]
  rw [find?_filter_self]
  rfl

lemma FS.read_remove_ne (fs : FS) (p q : String) (h : q ≠ p) :
    (fs.remove p).read q = fs.read q := by
  simp only [FS.remove, FS.read]
  rw [find?_filter_ne _ _ _ h]

lemma FS.read_mkdirAll (fs : FS) (d p : String) :
    (fs.mkdirAll d).read p = fs.read p := rfl

lemma mem_ancestors_self (fuel : Nat) (d : String) : d ∈ ancestors fuel d := by
  cases fuel <;> simp [ancestors]

lemma FS.mem_dirs_mkdirAll (fs : FS) (d : String) : d ∈ (fs.mkdirAll d).dirs := by
  simp only [FS.mkdirAll]
  exact List.mem_append.2 (Or.inl (mem_ancestors_self _ _))

/-! ### `Save` lemmas -/

lemma save_ok_eq (r : Registry) (fs : FS) :
    r.Save fs .ok =
      ((((fs.mkdirAll (dirOf r.path)).write (r.path ++ ".tmp")
          (encodeRegistryData r.assignments r.blockedPorts)).remove (r.path ++ ".tmp")).write
        r.path (encodeRegistryData r.assignments r.blockedPorts), none) := rfl

lemma save_err_iff (r : Registry) (fs : FS) (oracle : SaveOracle) :
    (r.Save fs oracle).2 = none ↔ oracle = .ok := by
  cases oracle <;> simp [Registry.Save]

lemma save_ok_read (r : Registry) (fs : FS) :
    ((r.Save fs .ok).1).read r.path =
      some (encodeRegistryData r.assignments r.blockedPorts) := by
  rw [save_ok_eq]
  exact FS.read_write_self _ _ _

lemma save_ok_read_tmp (r : Registry) (fs : FS) :
    ((r.Save fs .ok).1).read (r.path ++ ".tmp") = none := by
  rw [save_ok_eq]
  rw [FS.read_write_ne _ _ _ _ (tmp_ne r.path)]
  exact FS.read_remove_self _ _

lemma save_ok_dirs (r : Registry) (fs : FS) :
    dirOf r.path ∈ ((r.Save fs .ok).1).dirs := by
  rw [save_ok_eq]
  exact FS.mem_dirs_mkdirAll _ _

lemma save_fail (r : Registry) (fs : FS) (oracle : SaveOracle) (h : oracle ≠ .ok) :
    ((r.Save fs oracle).1).read r.path = fs.read r.path ∧
      (r.Save fs oracle).2 = some .ioError := by
  cases oracle with
  | ok => exact absurd rfl h
  | mkdirFail => exact ⟨rfl, rfl⟩
  | writeFail => exact ⟨rfl, rfl⟩
  | renameFail =>
      refine ⟨?_, rfl⟩
      show ((((fs.mkdirAll (dirOf r.path)).write (r.path ++ ".tmp")
          (encodeRegistryData r.assignments r.blockedPorts)).remove
          (r.path ++ ".tmp")).read r.path) = fs.read r.path
      rw [FS.read_remove_ne _ _ _ (Ne.symm (tmp_ne r.path))]
      rw [FS.read_write_ne _ _ _ _ (Ne.symm (tmp_ne r.path))]
      exact FS.read_mkdirAll _ _ _

lemma save_renameFail_tmp (r : Registry) (fs : FS) :
    ((r.Save fs .renameFail).1).read (r.path ++ ".tmp") = none := by
  exact FS.read_remove_self _ _

/-! ### Marshal/unmarshal round trip -/

lemma decode_encode_assignment (a : Assignment) :
    decodeAssignment (encodeAssignment a) = some a := by
  rcases a with ⟨port, description, path⟩
  by_cases hd : description = "" <;> by_cases hp : path = ""
  · subst hd
    subst hp
    rfl
  · subst hd
    simp only [encodeAssignment]
    rw [if_neg (show ¬((path == "") = true) by simp [hp])]
    rfl
  · subst hp
    simp only [encodeAssignment]
    rw [if_neg (show ¬((description == "") = true) by simp [hd])]
    rfl
  · simp only [encodeAssignment]
    rw [if_neg (show ¬((description == "") = true) by simp [hd]),
      if_neg (show ¬((path == "") = true) by simp [hp])]
    rfl

lemma decode_encode_blockedPort (bp : BlockedPort) :
    decodeBlockedPort (encodeBlockedPort bp) = some bp := by
  rcases bp with ⟨ports, description⟩
  by_cases hd : description = ""
  · subst hd
    rfl
  · simp only [encodeBlockedPort]
    rw [if_neg (show ¬((description == "") = true) by simp [hd])]
    rfl

lemma mapM_loop_assignments (l : List Assignment) (acc : List Assignment) :
    List.mapM.loop decodeAssignment (l.map encodeAssignment) acc =
      some (acc.reverse ++ l) := by
  induction l generalizing acc with
  | nil => simp [List.mapM.loop]
  | cons a as ih => simp [List.mapM.loop, decode_encode_assignment, ih]

lemma mapM_loop_blockedPorts (l : List BlockedPort) (acc : List BlockedPort) :
    List.mapM.loop decodeBlockedPort (l.map encodeBlockedPort) acc =
      some (acc.reverse ++ l) := by
  induction l generalizing acc with
  | nil => simp [List.mapM.loop]
  | cons bp bps ih => simp [List.mapM.loop, decode_encode_blockedPort, ih]

lemma mapM_decode_encode_assignments (l : List Assignment) :
    (l.map encodeAssignment).mapM decodeAssignment = some l := by
  simpa using mapM_loop_assignments l []

lemma mapM_decode_encode_blockedPorts (l : List BlockedPort) :
    (l.map encodeBlockedPort).mapM decodeBlockedPort = some l := by
  simpa using mapM_loop_blockedPorts l []

lemma decode_encode (as : List Assignment) (bps : List BlockedPort) :
    decodeRegistryData (encodeRegistryData as bps) = some ⟨as, bps⟩ := by
  have h1 : getField [("assignments", Json.arr (as.map encodeAssignment)),
      ("blockedPorts", Json.arr (bps.map encodeBlockedPort))] "assignments" =
      some (Json.arr (as.map encodeAssignment)) := rfl
  have h2 : getField [("assignments", Json.arr (as.map encodeAssignment)),
      ("blockedPorts", Json.arr (bps.map encodeBlockedPort))] "blockedPorts" =
      some (Json.arr (bps.map encodeBlockedPort)) := rfl
  simp only [decodeRegistryData, encodeRegistryData, h1, h2, decodeListField]
  simp [mapM_loop_assignments, mapM_loop_blockedPorts]

/-! ### Claim theorems -/

/-- C2: every execution of `Save` either replaces the target file's content
with the complete new serialization or leaves the previous on-disk content
intact. On success the target holds exactly the new document, the temporary
file `path + ".tmp"` (written in the target's directory) is gone, and the
target's parent directory has been created; on any failure the target's
previous content is unchanged and the error is surfaced; on rename failure
the temporary file has been removed. -/
theorem save_atomic (r : Registry) (fs : FS) (oracle : SaveOracle) :
    ((r.Save fs oracle).2 = none →
        ((r.Save fs oracle).1).read r.path =
          some (encodeRegistryData r.assignments r.blockedPorts) ∧
        ((r.Save fs oracle).1).read (r.path ++ ".tmp") = none ∧
        dirOf r.path ∈ ((r.Save fs oracle).1).dirs) ∧
    ((r.Save fs oracle).2 ≠ none →
        ((r.Save fs oracle).1).read r.path = fs.read r.path ∧
        (r.Save fs oracle).2 = some .ioError) ∧
    (oracle = .renameFail →
        ((r.Save fs oracle).1).read (r.path ++ ".tmp") = none) := by
  refine ⟨?_, ?_, ?_⟩
  · intro hnone
    have hok : oracle = .ok := (save_err_iff r fs oracle).1 hnone
    subst hok
    exact ⟨save_ok_read r fs, save_ok_read_tmp r fs, save_ok_dirs r fs⟩
  · intro hsome
    have hne : oracle ≠ .ok := by
      intro hok
      exact hsome ((save_err_iff r fs oracle).2 hok)
    exact save_fail r fs oracle hne
  · intro hrf
    subst hrf
    exact save_renameFail_tmp r fs

/-- Witness for C2: a successful `Save` installs the full document, and a
`Save` whose rename fails leaves the old content in place. -/
theorem save_atomic_witness :
    ((Registry.Save ⟨"a/r.json", [⟨3100, "web", "/w"⟩], []⟩ ⟨[], []⟩ .ok).1).read "a/r.json" =
      some (encodeRegistryData [⟨3100, "web", "/w"⟩] []) ∧
    ((Registry.Save ⟨"a/r.json", [⟨3100, "web", "/w"⟩], []⟩
        ⟨[], [("a/r.json", .null)]⟩ .renameFail).1).read "a/r.json" = some .null := by
  constructor
  · exact ((save_atomic ⟨"a/r.json", [⟨3100, "web", "/w"⟩], []⟩ ⟨[], []⟩ .ok).1 rfl).1
  · have h := ((save_atomic ⟨"a/r.json", [⟨3100, "web", "/w"⟩], []⟩
        ⟨[], [("a/r.json", .null)]⟩ .renameFail).2.1 (by decide))
    exact h.1.trans rfl

lemma new_after_save_eq (r : Registry) (fs : FS) :
    New ((r.Save fs .ok).1) r.path = .ok r := by
  rcases r with ⟨path, as, bps⟩
  have hread : ((Registry.Save ⟨path, as, bps⟩ fs .ok).1).read path =
      some (encodeRegistryData as bps) := save_ok_read _ _
  simp only [New, Registry.load]
  rw [hread]
  simp [decode_encode]

/-- C7: saving a registry and then constructing a new `Registry` by loading
the same path reproduces the registry exactly: same assignment and
blocked-port collections, same values, same order. -/
theorem save_load_roundtrip (r : Registry) (fs : FS) :
    New ((r.Save fs .ok).1) r.path = .ok r :=
  new_after_save_eq r fs

/-- C3: a port `p` matches a rule text `s` iff either `s` contains a `-`,
splitting `s` on `-` yields exactly two parts that, after trimming
whitespace, parse as integers `lo` and `hi`, and `lo ≤ p ≤ hi` (so nothing
matches when `lo > hi`); or `s` contains no `-` and `s`, trimmed, parses as
an integer equal to `p`. Malformed texts simply fail the match (the
function is total — no error or crash). -/
theorem isPortInRange_spec (port : Int) (s : String) :
    isPortInRange port s = true ↔
      ((containsChar s '-' = true ∧ ∃ a b lo hi, splitString s '-' = [a, b] ∧
          Atoi (trimSpace a) = some lo ∧ Atoi (trimSpace b) = some hi ∧
          lo ≤ port ∧ port ≤ hi) ∨
       (containsChar s '-' = false ∧ Atoi (trimSpace s) = some port)) := by
  unfold isPortInRange
  by_cases hc : containsChar s '-' = true
  · rcases hsp : splitString s '-' with _ | ⟨a, _ | ⟨b, _ | ⟨c, rest⟩⟩⟩
    · simp [hsp, hc]
    · simp [hsp, hc]
    · cases hA : Atoi (trimSpace a) with
      | none => simp [hsp, hc, hA]
      | some lo =>
          cases hB : Atoi (trimSpace b) with
          | none => simp [hsp, hc, hA, hB]
          | some hi =>
              simp [hsp, hc, hA, hB]
              constructor
              · rintro ⟨h1, h2⟩
                exact ⟨a, b, ⟨rfl, rfl⟩, lo, hA, hi, hB, h1, h2⟩
              · rintro ⟨a1, b1, ⟨rfl, rfl⟩, lo1, hA1, hi1, hB1, h1, h2⟩
                rw [hA] at hA1
                rw [hB] at hB1
                injection hA1 with h7
                injection hB1 with h8
                subst h7
                subst h8
                exact ⟨h1, h2⟩
    · simp [hsp, hc]
  · have hc' : containsChar s '-' = false := by simpa using hc
    cases hA : Atoi (trimSpace s) with
    | none => simp [hc', hA]
    | some n =>
        simp [hc', hA]
        exact eq_comm

/-! ### Operation-shape lemmas -/

lemma find?_port_eq_none (l : List Assignment) (port : Int)
    (h : ∀ a ∈ l, a.Port ≠ port) :
    l.find? (fun a => a.Port == port) = none := by
  rw [List.find?_eq_none]
  intro a ha
  simpa using h a ha

lemma assignPort_eq_already (r : Registry) (fs : FS) (oracle : SaveOracle)
    (port : Int) (d pth : String) (a : Assignment)
    (h : r.assignments.find? (fun x => x.Port == port) = some a) :
    r.AssignPort fs oracle port d pth =
      (r, fs, some (.portAlreadyAssigned a.Description)) := by
  simp only [Registry.AssignPort, h]

lemma assignPort_eq_blocked (r : Registry) (fs : FS) (oracle : SaveOracle)
    (port : Int) (d pth : String)
    (h : ∀ a ∈ r.assignments, a.Port ≠ port)
    (hb : r.isPortBlocked port = true) :
    r.AssignPort fs oracle port d pth = (r, fs, some (.portBlocked port)) := by
  simp only [Registry.AssignPort, find?_port_eq_none r.assignments port h, hb, if_true]

lemma assignPort_eq_append (r : Registry) (fs : FS) (oracle : SaveOracle)
    (port : Int) (d pth : String)
    (h : ∀ a ∈ r.assignments, a.Port ≠ port)
    (hb : r.isPortBlocked port = false) :
    r.AssignPort fs oracle port d pth =
      ({ r with assignments := r.assignments ++ [⟨port, d, pth⟩] },
        ({ r with assignments := r.assignments ++ [⟨port, d, pth⟩] } :
          Registry).Save fs oracle) := by
  simp only [Registry.AssignPort, find?_port_eq_none r.assignments port h, hb]
  simp

lemma unassignPort_eq_notfound (r : Registry) (fs : FS) (oracle : SaveOracle)
    (port : Int) (h : ∀ a ∈ r.assignments, a.Port ≠ port) :
    r.UnassignPort fs oracle port = (r, fs, some (.portNotAssigned port)) := by
  have hany : r.assignments.any (fun a => a.Port == port) = false := by
    rw [List.any_eq_false]
    intro a ha
    simpa using h a ha
  simp only [Registry.UnassignPort, hany]
  simp

lemma unassignPort_eq_removed (r : Registry) (fs : FS) (oracle : SaveOracle)
    (port : Int) (h : ∃ a ∈ r.assignments, a.Port = port) :
    r.UnassignPort fs oracle port =
      ({ r with assignments := r.assignments.filter (fun a => !(a.Port == port)) },
        ({ r with assignments := r.assignments.filter (fun a => !(a.Port == port)) } :
          Registry).Save fs oracle) := by
  have hany : r.assignments.any (fun a => a.Port == port) = true := by
    rw [List.any_eq_true]
    obtain ⟨a, ha, hp⟩ := h
    exact ⟨a, ha, by simpa using hp⟩
  simp only [Registry.UnassignPort, hany]
  simp

lemma init_eq_exists (r : Registry) (fs : FS) (oracle : SaveOracle)
    (doc : Json) (h : fs.read r.path = some doc) :
    r.Init fs oracle = (r, fs, some (.alreadyInitialized r.path)) := by
  simp only [Registry.Init, h]

lemma init_eq_fresh (r : Registry) (fs : FS) (oracle : SaveOracle)
    (h : fs.read r.path = none) :
    r.Init fs oracle =
      ({ r with blockedPorts := defaultBlockedPorts, assignments := [] },
        ({ r with blockedPorts := defaultBlockedPorts, assignments := [] } :
          Registry).Save fs oracle) := by
  simp only [Registry.Init, h]

/-- C6: `AssignPort` fails with `portAlreadyAssigned`, carrying the existing
assignment's description, whenever some existing assignment holds the
requested port — this takes precedence even when the port is also blocked
(the first conjunct assumes nothing about blocking); otherwise it fails with
`portBlocked` when the port matches a blocked rule; otherwise it appends the
new assignment at the end of the collection and performs `Save`. -/
theorem assignPort_spec (r : Registry) (fs : FS) (oracle : SaveOracle)
    (port : Int) (d pth : String) :
    ((∃ a ∈ r.assignments, a.Port = port) →
        ∃ a ∈ r.assignments, a.Port = port ∧
          r.AssignPort fs oracle port d pth =
            (r, fs, some (.portAlreadyAssigned a.Description))) ∧
    ((∀ a ∈ r.assignments, a.Port ≠ port) → r.isPortBlocked port = true →
        r.AssignPort fs oracle port d pth = (r, fs, some (.portBlocked port))) ∧
    ((∀ a ∈ r.assignments, a.Port ≠ port) → r.isPortBlocked port = false →
        r.AssignPort fs oracle port d pth =
          ({ r with assignments := r.assignments ++ [⟨port, d, pth⟩] },
            ({ r with assignments := r.assignments ++ [⟨port, d, pth⟩] } :
              Registry).Save fs oracle)) := by
  refine ⟨?_, assignPort_eq_blocked r fs oracle port d pth,
    assignPort_eq_append r fs oracle port d pth⟩
  intro hex
  have hsome : (r.assignments.find? (fun x => x.Port == port)).isSome := by
    rw [List.find?_isSome]
    obtain ⟨a, ha, hp⟩ := hex
    exact ⟨a, ha, by simpa using hp⟩
  cases hfind : r.assignments.find? (fun x => x.Port == port) with
  | none => rw [hfind] at hsome; cases hsome
  | some a =>
      refine ⟨a, List.mem_of_find?_eq_some hfind, ?_, ?_⟩
      · have := List.find?_some hfind
        simpa using this
      · exact assignPort_eq_already r fs oracle port d pth a hfind

/-- Witness for C6: assigning port 5 when it is both assigned (to "web") and
blocked fails with `portAlreadyAssigned "web"` — the assigned check wins. -/
theorem assignPort_spec_witness :
    (Registry.AssignPort ⟨"r.json", [⟨5, "web", "/w"⟩], [⟨"5", "db"⟩]⟩
        ⟨[], []⟩ .ok 5 "new" "/n").2.2 = some (.portAlreadyAssigned "web") := by
  obtain ⟨a, ha, hp, heq⟩ :=
    (assignPort_spec ⟨"r.json", [⟨5, "web", "/w"⟩], [⟨"5", "db"⟩]⟩
      ⟨[], []⟩ .ok 5 "new" "/n").1 ⟨⟨5, "web", "/w"⟩, by simp, rfl⟩
  have ha' : a = ⟨5, "web", "/w"⟩ := by simpa using ha
  subst ha'
  rw [heq]

/-- C9: `UnassignPort` fails with `portNotAssigned` and leaves the registry
and the file system unchanged when no assignment holds the port; otherwise
it removes exactly the assignments holding that port, keeping all others in
their relative order (the result is the order-preserving filter, a sublist
of the original collection), and performs `Save`. -/
theorem unassignPort_spec (r : Registry) (fs : FS) (oracle : SaveOracle)
    (port : Int) :
    ((∀ a ∈ r.assignments, a.Port ≠ port) →
        r.UnassignPort fs oracle port = (r, fs, some (.portNotAssigned port))) ∧
    ((∃ a ∈ r.assignments, a.Port = port) →
        (r.UnassignPort fs oracle port).1.assignments =
          r.assignments.filter (fun a => !(a.Port == port)) ∧
        ((r.UnassignPort fs oracle port).1.assignments).Sublist r.assignments ∧
        ((r.UnassignPort fs oracle port).2.1, (r.UnassignPort fs oracle port).2.2) =
          ({ r with assignments := r.assignments.filter (fun a => !(a.Port == port)) } :
            Registry).Save fs oracle) := by
  refine ⟨unassignPort_eq_notfound r fs oracle port, ?_⟩
  intro hex
  rw [unassignPort_eq_removed r fs oracle port hex]
  exact ⟨rfl, List.filter_sublist _, rfl⟩

/-- Witness for C9: unassigning an absent port errors and changes nothing;
unassigning a present port removes it and keeps the others in order. -/
theorem unassignPort_spec_witness :
    Registry.UnassignPort ⟨"r.json", [⟨8000, "p1", ""⟩, ⟨8001, "p2", ""⟩]
        , []⟩ ⟨[], []⟩ .ok 9999 =
      (⟨"r.json", [⟨8000, "p1", ""⟩, ⟨8001, "p2", ""⟩], []⟩, ⟨[], []⟩,
        some (.portNotAssigned 9999)) ∧
    (Registry.UnassignPort ⟨"r.json", [⟨8000, "p1", ""⟩, ⟨8001, "p2", ""⟩]
        , []⟩ ⟨[], []⟩ .ok 8000).1.assignments = [⟨8001, "p2", ""⟩] := by
  constructor
  · exact (unassignPort_spec ⟨"r.json", [⟨8000, "p1", ""⟩, ⟨8001, "p2", ""⟩], []⟩
      ⟨[], []⟩ .ok 9999).1 (by decide)
  · have h := ((unassignPort_spec ⟨"r.json", [⟨8000, "p1", ""⟩, ⟨8001, "p2", ""⟩], []⟩
      ⟨[], []⟩ .ok 8000).2 ⟨⟨8000, "p1", ""⟩, by simp, rfl⟩).1
    rw [h]
    rfl

/-- C8: `Init` fails with `alreadyInitialized` whenever a file already exists
at the registry's path, leaving the file system (hence that file's content)
untouched; otherwise it sets the blocked-port collection to exactly the five
default rules — 3306 (MySQL), 5432 (PostgreSQL), 6379 (Redis), 8080 (HTTP
alternative), 27017 (MongoDB), each with a human-readable description —
empties the assignment collection, and performs `Save`. -/
theorem init_spec (r : Registry) (fs : FS) (oracle : SaveOracle) :
    (∀ doc, fs.read r.path = some doc →
        r.Init fs oracle = (r, fs, some (.alreadyInitialized r.path))) ∧
    (fs.read r.path = none →
        (r.Init fs oracle).1.blockedPorts =
          [⟨"3306", "MySQL default port"⟩, ⟨"5432", "PostgreSQL default port"⟩,
           ⟨"6379", "Redis default port"⟩, ⟨"8080", "Common HTTP alternative port"⟩,
           ⟨"27017", "MongoDB default port"⟩] ∧
        (r.Init fs oracle).1.assignments = [] ∧
        ((r.Init fs oracle).2.1, (r.Init fs oracle).2.2) =
          ({ r with blockedPorts := defaultBlockedPorts, assignments := [] } :
            Registry).Save fs oracle) := by
  constructor
  · intro doc h
    exact init_eq_exists r fs oracle doc h
  · intro h
    rw [init_eq_fresh r fs oracle h]
    exact ⟨rfl, rfl, rfl⟩

/-- Witness for C8: on an empty file system `Init` seeds the five defaults;
on a file system already holding the path it fails and leaves it alone. -/
theorem init_spec_witness :
    (Registry.Init ⟨"r.json", [], []⟩ ⟨[], []⟩ .ok).1.blockedPorts =
      [⟨"3306", "MySQL default port"⟩, ⟨"5432", "PostgreSQL default port"⟩,
       ⟨"6379", "Redis default port"⟩, ⟨"8080", "Common HTTP alternative port"⟩,
       ⟨"27017", "MongoDB default port"⟩] ∧
    Registry.Init ⟨"r.json", [], []⟩ ⟨[], [("r.json", .null)]⟩ .ok =
      (⟨"r.json", [], []⟩, ⟨[], [("r.json", .null)]⟩,
        some (.alreadyInitialized "r.json")) := by
  constructor
  · exact ((init_spec ⟨"r.json", [], []⟩ ⟨[], []⟩ .ok).2 rfl).1
  · exact (init_spec ⟨"r.json", [], []⟩ ⟨[], [("r.json", .null)]⟩ .ok).1 .null rfl

/-- C1 counterexample: with a failing rename, `AssignPort` on an empty
registry returns an error yet leaves the appended assignment in the
in-memory collection (not the empty collection the claim's rollback would
restore), and `UnassignPort` returns an error yet leaves the assignment
removed. -/
theorem save_failure_rollback_cex :
    ((Registry.AssignPort ⟨"a/r.json", [], []⟩ ⟨[], []⟩ .renameFail
        3100 "web" "/w").2.2 = some .ioError ∧
      (Registry.AssignPort ⟨"a/r.json", [], []⟩ ⟨[], []⟩ .renameFail
        3100 "web" "/w").1.assignments = [⟨3100, "web", "/w"⟩]) ∧
    ((Registry.UnassignPort ⟨"a/r.json", [⟨3100, "web", "/w"⟩], []⟩ ⟨[], []⟩
        .renameFail 3100).2.2 = some .ioError ∧
      (Registry.UnassignPort ⟨"a/r.json", [⟨3100, "web", "/w"⟩], []⟩ ⟨[], []⟩
        .renameFail 3100).1.assignments = []) :=
  ⟨⟨rfl, rfl⟩, ⟨rfl, rfl⟩⟩

/-- C1 (amended): if the `Save` at the end of a mutating operation fails,
the operation returns an error and the previous on-disk content of the
target is intact, but the in-memory collections are NOT rolled back:
`AssignPort` leaves the appended assignment in memory and `UnassignPort`
leaves the assignment removed, so after a failed save the in-memory state
reflects the unpersisted mutation. -/
theorem save_failure_no_rollback (r : Registry) (fs : FS) (oracle : SaveOracle)
    (port : Int) (d pth : String) (hfail : oracle ≠ .ok) :
    ((∀ a ∈ r.assignments, a.Port ≠ port) → r.isPortBlocked port = false →
        (r.AssignPort fs oracle port d pth).2.2 = some .ioError ∧
        (r.AssignPort fs oracle port d pth).1.assignments =
          r.assignments ++ [⟨port, d, pth⟩] ∧
        ((r.AssignPort fs oracle port d pth).2.1).read r.path = fs.read r.path) ∧
    ((∃ a ∈ r.assignments, a.Port = port) →
        (r.UnassignPort fs oracle port).2.2 = some .ioError ∧
        (r.UnassignPort fs oracle port).1.assignments =
          r.assignments.filter (fun a => !(a.Port == port)) ∧
        ((r.UnassignPort fs oracle port).2.1).read r.path = fs.read r.path) := by
  constructor
  · intro h hb
    rw [assignPort_eq_append r fs oracle port d pth h hb]
    have hs := save_fail
      { r with assignments := r.assignments ++ [⟨port, d, pth⟩] } fs oracle hfail
    exact ⟨hs.2, rfl, hs.1⟩
  · intro hex
    rw [unassignPort_eq_removed r fs oracle port hex]
    have hs := save_fail
      { r with assignments := r.assignments.filter (fun a => !(a.Port == port)) }
      fs oracle hfail
    exact ⟨hs.2, rfl, hs.1⟩

/-- Witness for C1 (amended): a failed rename during `AssignPort` keeps the
appended assignment in memory while the old file content survives on disk. -/
theorem save_failure_no_rollback_witness :
    (Registry.AssignPort ⟨"a/r.json", [], []⟩ ⟨[], [("a/r.json", .null)]⟩
        .renameFail 3100 "web" "/w").1.assignments = [⟨3100, "web", "/w"⟩] ∧
    ((Registry.AssignPort ⟨"a/r.json", [], []⟩ ⟨[], [("a/r.json", .null)]⟩
        .renameFail 3100 "web" "/w").2.1).read "a/r.json" = some .null := by
  have h := (save_failure_no_rollback ⟨"a/r.json", [], []⟩
      ⟨[], [("a/r.json", .null)]⟩ .renameFail 3100 "web" "/w"
      (by decide)).1 (by simp) rfl
  exact ⟨h.2.1, h.2.2.trans rfl⟩

/-! ### Scan-loop lemmas -/

lemma isPortAvailable_iff (r : Registry) (port : Int) :
    r.IsPortAvailable port = true ↔
      (∀ a ∈ r.assignments, a.Port ≠ port) ∧ r.isPortBlocked port = false := by
  unfold Registry.IsPortAvailable
  cases hany : r.assignments.any (fun a => a.Port == port) with
  | false =>
      rw [List.any_eq_false] at hany
      simp only [Bool.false_eq_true, if_false, Bool.not_eq_true']
      constructor
      · intro hb
        exact ⟨fun a ha => by simpa using hany a ha, hb⟩
      · rintro ⟨-, hb⟩
        exact hb
  | true =>
      rw [List.any_eq_true] at hany
      obtain ⟨a, ha, hp⟩ := hany
      simp only [if_true]
      constructor
      · intro h
        cases h
      · rintro ⟨hall, -⟩
        exact absurd (by simpa using hp) (hall a ha)

lemma findLoop_eq_neg_one_iff (r : Registry) (p : Int) (hp : 0 ≤ p) (f : Nat) :
    findLoop r p f = -1 ↔
      ∀ i : Nat, i < f → r.IsPortAvailable (p + i) = false := by
  induction f generalizing p with
  | zero => simp [findLoop]
  | succ f ih =>
      simp only [findLoop]
      by_cases hav : r.IsPortAvailable p = true
      · rw [if_pos hav]
        constructor
        · intro h
          exact absurd h (by omega)
        · intro h
          have h0 := h 0 (by omega)
          rw [show p + ((0 : Nat) : Int) = p by simp] at h0
          exact Bool.noConfusion (h0.symm.trans hav)
      · have hav' : r.IsPortAvailable p = false := by simpa using hav
        rw [if_neg hav, ih (p + 1) (by omega)]
        constructor
        · intro h i hi
          cases i with
          | zero =>
              rw [show p + ((0 : Nat) : Int) = p by simp]
              exact hav'
          | succ j =>
              have h2 := h j (by omega)
              rw [show p + ((j + 1 : Nat) : Int) = (p + 1) + (j : Int) by push_cast; ring]
              exact h2
        · intro h i hi
          have h2 := h (i + 1) (by omega)
          rw [show (p + 1) + ((i : Nat) : Int) = p + ((i + 1 : Nat) : Int) by push_cast; ring]
          exact h2

lemma findLoop_first (r : Registry) (p q : Int) (f : Nat)
    (hq : p ≤ q) (hlt : q < p + f) (hav : r.IsPortAvailable q = true)
    (hmin : ∀ x : Int, p ≤ x → x < q → r.IsPortAvailable x = false) :
    findLoop r p f = q := by
  induction f generalizing p with
  | zero =>
      exfalso
      simp only [Nat.cast_zero, add_zero] at hlt
      omega
  | succ f ih =>
      simp only [findLoop]
      by_cases hpq : p = q
      · subst hpq
        rw [if_pos hav]
      · have hpltq : p < q := by omega
        have hpav : r.IsPortAvailable p = false := hmin p le_rfl hpltq
        rw [if_neg (by simp [hpav])]
        exact ih (p + 1) (by omega) (by push_cast at hlt ⊢; omega)
          (fun x hx1 hx2 => hmin x (by omega) hx2)

lemma findLoop_found (r : Registry) (p : Int) (f : Nat) (hp : 0 ≤ p)
    (h : findLoop r p f ≠ -1) :
    r.IsPortAvailable (findLoop r p f) = true ∧
      p ≤ findLoop r p f ∧ findLoop r p f < p + f := by
  induction f generalizing p with
  | zero => simp [findLoop] at h
  | succ f ih =>
      simp only [findLoop] at h ⊢
      by_cases hav : r.IsPortAvailable p = true
      · rw [if_pos hav] at h ⊢
        refine ⟨hav, le_rfl, ?_⟩
        push_cast
        omega
      · rw [if_neg hav] at h ⊢
        obtain ⟨h1, h2, h3⟩ := ih (p + 1) (by omega) h
        refine ⟨h1, by omega, ?_⟩
        push_cast at h3 ⊢
        omega

lemma findNext_eq_neg_one_iff (r : Registry) :
    r.findNextAvailablePort = -1 ↔
      ∀ p : Int, 3100 ≤ p → p ≤ 65535 → r.IsPortAvailable p = false := by
  unfold Registry.findNextAvailablePort
  rw [findLoop_eq_neg_one_iff r 3100 (by omega) 62436]
  constructor
  · intro h p h1 h2
    obtain ⟨i, hie, hilt⟩ :
        ∃ i : Nat, (i : Int) = p - 3100 ∧ i < 62436 :=
      ⟨(p - 3100).toNat, by omega, by omega⟩
    have h3 := h i hilt
    rw [show (3100 : Int) + (i : Int) = p by omega] at h3
    exact h3
  · intro h i hi
    exact h (3100 + i) (by omega) (by
      have : (i : Int) < 62436 := by exact_mod_cast hi
      omega)

lemma findNext_first (r : Registry) (p₀ : Int) (h1 : 3100 ≤ p₀)
    (h2 : p₀ ≤ 65535) (hav : r.IsPortAvailable p₀ = true)
    (hmin : ∀ q : Int, 3100 ≤ q → q < p₀ → r.IsPortAvailable q = false) :
    r.findNextAvailablePort = p₀ := by
  unfold Registry.findNextAvailablePort
  exact findLoop_first r 3100 p₀ 62436 h1 (by push_cast; omega) hav
    (fun x hx1 hx2 => hmin x hx1 hx2)

/-- C4: `AssignNextAvailable` fails with `noPortsAvailable` exactly when
every port from 3100 to 65535 inclusive is unavailable (assigned or
blocked); and whenever `p₀` is the first available port of that ascending
scan, the operation mutates registry and file system exactly as
`AssignPort p₀` does — appending the assignment — and, when the save
succeeds, returns `p₀` with no error. -/
theorem assignNextAvailable_spec (r : Registry) (fs : FS) (oracle : SaveOracle)
    (d pth : String) :
    ((r.AssignNextAvailable fs oracle d pth).2.2.2 = some .noPortsAvailable ↔
        ∀ p : Int, 3100 ≤ p → p ≤ 65535 → r.IsPortAvailable p = false) ∧
    (∀ p₀ : Int, 3100 ≤ p₀ → p₀ ≤ 65535 → r.IsPortAvailable p₀ = true →
        (∀ q : Int, 3100 ≤ q → q < p₀ → r.IsPortAvailable q = false) →
        (r.AssignNextAvailable fs oracle d pth).1 =
          (r.AssignPort fs oracle p₀ d pth).1 ∧
        (r.AssignNextAvailable fs oracle d pth).2.1 =
          (r.AssignPort fs oracle p₀ d pth).2.1 ∧
        (r.AssignNextAvailable fs oracle d pth).1.assignments =
          r.assignments ++ [⟨p₀, d, pth⟩] ∧
        (oracle = .ok →
          (r.AssignNextAvailable fs oracle d pth).2.2.1 = p₀ ∧
          (r.AssignNextAvailable fs oracle d pth).2.2.2 = none)) := by
  constructor
  · by_cases hex : ∀ p : Int, 3100 ≤ p → p ≤ 65535 → r.IsPortAvailable p = false
    · have hm : r.findNextAvailablePort = -1 := (findNext_eq_neg_one_iff r).2 hex
      simp only [Registry.AssignNextAvailable, hm, if_pos rfl]
      exact iff_of_true rfl hex
    · have hm : ¬(r.findNextAvailablePort = -1) := fun h =>
        hex ((findNext_eq_neg_one_iff r).1 h)
      obtain ⟨hqav, hq1, hq2⟩ :=
        findLoop_found r 3100 62436 (by omega) hm
      obtain ⟨hall, hnb⟩ := (isPortAvailable_iff r _).1 hqav
      have hap := assignPort_eq_append r fs oracle r.findNextAvailablePort d pth hall hnb
      have hout : (r.AssignNextAvailable fs oracle d pth).2.2.2 = some .ioError ∨
          (r.AssignNextAvailable fs oracle d pth).2.2.2 = none := by
        simp only [Registry.AssignNextAvailable, if_neg hm]
        rw [hap]
        cases hsv : (({ r with assignments :=
            r.assignments ++ [⟨r.findNextAvailablePort, d, pth⟩] } :
            Registry).Save fs oracle).2 with
        | none => right; simp [hsv]
        | some e =>
            left
            have hne : oracle ≠ .ok := by
              intro hok
              subst hok
              exact Option.noConfusion ((save_err_iff _ fs .ok).2 rfl ▸ hsv)
            have hio := (save_fail { r with assignments :=
                r.assignments ++ [⟨r.findNextAvailablePort, d, pth⟩] } fs oracle hne).2
            rw [hsv] at hio
            injection hio with he
            simp [hsv, he]
      constructor
      · intro hcontra
        rcases hout with h | h <;> rw [hcontra] at h <;> simp at h
      · intro hforall
        exact absurd hforall hex
  · intro p₀ h1 h2 hav hmin
    have hfind : r.findNextAvailablePort = p₀ := findNext_first r p₀ h1 h2 hav hmin
    have hne : ¬(p₀ = -1) := by omega
    obtain ⟨hall, hnb⟩ := (isPortAvailable_iff r p₀).1 hav
    have hap := assignPort_eq_append r fs oracle p₀ d pth hall hnb
    simp only [Registry.AssignNextAvailable, hfind, if_neg hne]
    rw [hap]
    cases hsv : (({ r with assignments := r.assignments ++ [⟨p₀, d, pth⟩] } :
        Registry).Save fs oracle).2 with
    | none =>
        simp only [hsv]
        exact ⟨by trivial, by trivial, by trivial, fun _ => ⟨by trivial, by trivial⟩⟩
    | some e =>
        simp only [hsv]
        refine ⟨by trivial, by trivial, by trivial, fun hok => ?_⟩
        subst hok
        have hn : (({ r with assignments := r.assignments ++ [⟨p₀, d, pth⟩] } :
            Registry).Save fs .ok).2 = none := (save_err_iff _ fs .ok).2 rfl
        rw [hn] at hsv
        exact Option.noConfusion hsv

/-- Witness for C4: with 3100 and 3101 assigned and "3102-3105" blocked, the
next assigned port is 3106, with no error, appended at the end. -/
theorem assignNextAvailable_spec_witness :
    (Registry.AssignNextAvailable ⟨"r.json", [⟨3100, "a", ""⟩, ⟨3101, "b", ""⟩],
        [⟨"3102-3105", "blocked"⟩]⟩ ⟨[], []⟩ .ok "test" "").2.2.1 = 3106 ∧
    (Registry.AssignNextAvailable ⟨"r.json", [⟨3100, "a", ""⟩, ⟨3101, "b", ""⟩],
        [⟨"3102-3105", "blocked"⟩]⟩ ⟨[], []⟩ .ok "test" "").2.2.2 = none ∧
    (Registry.AssignNextAvailable ⟨"r.json", [⟨3100, "a", ""⟩, ⟨3101, "b", ""⟩],
        [⟨"3102-3105", "blocked"⟩]⟩ ⟨[], []⟩ .ok "test" "").1.assignments =
      [⟨3100, "a", ""⟩, ⟨3101, "b", ""⟩, ⟨3106, "test", ""⟩] := by
  have h := (assignNextAvailable_spec ⟨"r.json", [⟨3100, "a", ""⟩, ⟨3101, "b", ""⟩],
      [⟨"3102-3105", "blocked"⟩]⟩ ⟨[], []⟩ .ok "test" "").2 3106
    (by norm_num) (by norm_num) rfl
    (by intro q hq1 hq2; interval_cases q <;> rfl)
  exact ⟨(h.2.2.2 rfl).1, (h.2.2.2 rfl).2, h.2.2.1.trans rfl⟩

/-! ### Reachable states and the uniqueness invariant -/

/-- Registry states reachable through the public operations: constructed
fresh (`New` on an absent path yields empty collections) and closed under
`Init`, `AssignPort`, `AssignNextAvailable`, `UnassignPort` — with any
file-system state and any save outcome — and under saving then re-loading
(`Save` followed by `New` of the same path). -/
inductive Reached : Registry → Prop where
  | new (path : String) : Reached ⟨path, [], []⟩
  | init (r : Registry) (fs : FS) (oracle : SaveOracle) :
      Reached r → Reached (r.Init fs oracle).1
  | assign (r : Registry) (fs : FS) (oracle : SaveOracle)
      (port : Int) (d pth : String) :
      Reached r → Reached (r.AssignPort fs oracle port d pth).1
  | assignNext (r : Registry) (fs : FS) (oracle : SaveOracle) (d pth : String) :
      Reached r → Reached (r.AssignNextAvailable fs oracle d pth).1
  | unassign (r : Registry) (fs : FS) (oracle : SaveOracle) (port : Int) :
      Reached r → Reached (r.UnassignPort fs oracle port).1
  | reload (r : Registry) (fs : FS) (r' : Registry) :
      Reached r → New ((r.Save fs .ok).1) r.path = .ok r' → Reached r'

lemma assignPort_preserves_unique (r : Registry) (fs : FS) (oracle : SaveOracle)
    (port : Int) (d pth : String)
    (ih : r.assignments.Pairwise (fun a b => a.Port ≠ b.Port)) :
    ((r.AssignPort fs oracle port d pth).1).assignments.Pairwise
      (fun a b => a.Port ≠ b.Port) := by
  cases hfind : r.assignments.find? (fun x => x.Port == port) with
  | some a =>
      rw [assignPort_eq_already r fs oracle port d pth a hfind]
      exact ih
  | none =>
      have hall : ∀ x ∈ r.assignments, x.Port ≠ port := by
        intro x hx
        simpa using List.find?_eq_none.1 hfind x hx
      cases hb : r.isPortBlocked port with
      | true =>
          rw [assignPort_eq_blocked r fs oracle port d pth hall hb]
          exact ih
      | false =>
          rw [assignPort_eq_append r fs oracle port d pth hall hb]
          rw [List.pairwise_append]
          refine ⟨ih, by simp, ?_⟩
          intro x hx b hb2
          rw [List.mem_singleton.1 hb2]
          exact hall x hx

/-- C5 counterexample: the claim's positivity half fails — a registry
constructed by `New` on an absent path accepts `AssignPort` of the
non-positive port `-1` with no error, and loading a file with two entries
for port 5 accepts the duplicate with no error. -/
theorem registry_invariant_cex :
    New ⟨[], []⟩ "r.json" = .ok ⟨"r.json", [], []⟩ ∧
    ((Registry.AssignPort ⟨"r.json", [], []⟩ ⟨[], []⟩ .ok (-1) "x" "/y").2.2 = none ∧
      (Registry.AssignPort ⟨"r.json", [], []⟩ ⟨[], []⟩ .ok (-1) "x" "/y").1.assignments =
        [⟨-1, "x", "/y"⟩]) ∧
    New ⟨[], [("r.json", .obj [("assignments",
        .arr [.obj [("port", .num 5)], .obj [("port", .num 5)]])])]⟩ "r.json" =
      .ok ⟨"r.json", [⟨5, "", ""⟩, ⟨5, "", ""⟩], []⟩ :=
  ⟨rfl, ⟨rfl, rfl⟩, rfl⟩

/-- C5 (amended): in every registry state reachable through the public
operations from a fresh construction (`New` on an absent path), via `Init`,
`AssignPort`, `AssignNextAvailable`, `UnassignPort` under any save outcome,
and via save-then-reload, no two assignments share the same port. (The
code does not enforce that ports are positive, and loading an arbitrary
existing file validates nothing.) -/
theorem reached_unique_ports (r : Registry) (h : Reached r) :
    r.assignments.Pairwise (fun a b => a.Port ≠ b.Port) := by
  induction h with
  | new path => exact List.Pairwise.nil
  | init r fs oracle hr ih =>
      cases hread : fs.read r.path with
      | some doc =>
          rw [init_eq_exists r fs oracle doc hread]
          exact ih
      | none =>
          rw [init_eq_fresh r fs oracle hread]
          exact List.Pairwise.nil
  | assign r fs oracle port d pth hr ih =>
      exact assignPort_preserves_unique r fs oracle port d pth ih
  | assignNext r fs oracle d pth hr ih =>
      unfold Registry.AssignNextAvailable
      by_cases hm : r.findNextAvailablePort = -1
      · simp only [hm, if_pos rfl]
        exact ih
      · simp only [if_neg hm]
        cases hsv : (r.AssignPort fs oracle r.findNextAvailablePort d pth).2.2 with
        | some e =>
            simp only [hsv]
            exact assignPort_preserves_unique r fs oracle _ d pth ih
        | none =>
            simp only [hsv]
            exact assignPort_preserves_unique r fs oracle _ d pth ih
  | unassign r fs oracle port hr ih =>
      by_cases hex : ∃ a ∈ r.assignments, a.Port = port
      · rw [unassignPort_eq_removed r fs oracle port hex]
        exact ih.sublist (List.filter_sublist _)
      · have hall : ∀ a ∈ r.assignments, a.Port ≠ port := by
          intro a ha hp
          exact hex ⟨a, ha, hp⟩
        rw [unassignPort_eq_notfound r fs oracle port hall]
        exact ih
  | reload r fs r' hr hnew ih =>
      rw [new_after_save_eq r fs] at hnew
      injection hnew with h
      exact h ▸ ih

/-- Witness for C5 (amended): a state reached by one `AssignPort` from a
fresh registry has pairwise-distinct ports. -/
theorem reached_unique_ports_witness :
    ((Registry.AssignPort ⟨"r.json", [], []⟩ ⟨[], []⟩ .ok 3100 "a" "").1.assignments).Pairwise
      (fun a b => a.Port ≠ b.Port) :=
  reached_unique_ports _
    (Reached.assign ⟨"r.json", [], []⟩ ⟨[], []⟩ .ok 3100 "a" "" (Reached.new "r.json"))

end Portreg
